import Mathlib

/-!
# Verification of the prest identifier-quoting module and template function registry

Shallow embedding of:
* the identifier validation/quoting module (`IsValid`, `IsSafeSegment`, `Quote`,
  `SplitAndValidateCSV`), and
* the template `FuncRegistry` (`sqlVal`, `sqlList`, `ident`, `defaultOrValue`,
  `limitOffset`, ...).

Go strings are modelled as Lean `String`s; where the Go code walks runes or
splits on a byte we work on `String.data : List Char` (the separators involved,
`'.'` and `','`, are ASCII, so byte-level and rune-level splitting of UTF-8
text agree).  Go's `len` on a string is the UTF-8 byte count, modelled by
`goLen`.  Go's machine `int` is modelled as `Int` with explicit wrapping
(`int64Wrap`) at the one subtraction where overflow matters.
-/

namespace Prest

/-! ## Character classes of the identifier regular expression

The source compiles `^[A-Za-z_][A-Za-z0-9_]*(\.[A-Za-z_][A-Za-z0-9_]*)*$`
(the same literal appears twice: `re` in the ident module and `identRe` in
the registry).  `isStartChar` is the class `[A-Za-z_]`, `isWordChar` the
class `[A-Za-z0-9_]`. -/

def isStartChar (c : Char) : Bool :=
  (decide ('A'.toNat ≤ c.toNat) && decide (c.toNat ≤ 'Z'.toNat)) ||
  (decide ('a'.toNat ≤ c.toNat) && decide (c.toNat ≤ 'z'.toNat)) ||
  decide (c.toNat = '_'.toNat)

def isWordChar (c : Char) : Bool :=
  isStartChar c || (decide ('0'.toNat ≤ c.toNat) && decide (c.toNat ≤ '9'.toNat))

/-- Deterministic matcher for the anchored regular expression
`^[A-Za-z_][A-Za-z0-9_]*(\.[A-Za-z_][A-Za-z0-9_]*)*$`.
The flag records the automaton state: `true` = a segment-start character is
required next (at the beginning of the text and right after a `.`),
`false` = inside a segment, where the text may end, continue with a word
character, or start a new segment after a `.`. -/
def reRun : Bool → List Char → Bool
  | needStart, [] => !needStart
  | true, c :: rest => isStartChar c && reRun false rest
  | false, c :: rest =>
    if isWordChar c then reRun false rest
    else if c == '.' then reRun true rest
    else false

/-- `re.MatchString s` / `identRe.MatchString s` for the anchored pattern. -/
def reMatch (l : List Char) : Bool := reRun true l

/-! ## Models of the Go standard-library string operations used -/

/-- Number of bytes of the UTF-8 encoding of a rune (Go `utf8.RuneLen`);
`goLen` below models Go's `len` on a string. -/
def charSize (c : Char) : Nat :=
  if c.toNat ≤ 0x7F then 1 else if c.toNat ≤ 0x7FF then 2
  else if c.toNat ≤ 0xFFFF then 3 else 4

/-- Go's `len` of a string: its UTF-8 byte count. -/
def goLen (l : List Char) : Nat := (l.map charSize).sum

/-- Go's `strings.Split(s, sep)` for a single-character separator: always at
least one piece; empty pieces are kept. -/
def splitCh (sep : Char) : List Char → List (List Char)
  | [] => [[]]
  | c :: rest =>
    match splitCh sep rest with
    | [] => [[c]]
    | h :: t => if c == sep then [] :: h :: t else (c :: h) :: t

/-- Go's `strings.Join(ps, sep)` for a single-character separator. -/
def joinCh (sep : Char) : List (List Char) → List Char
  | [] => []
  | [p] => p
  | p :: ps => p ++ sep :: joinCh sep ps

/-- Go's `strings.ReplaceAll(p, "\x22", "\x22\x22")`: double every double
quote. -/
def escQuotes : List Char → List Char
  | [] => []
  | c :: rest => if c == '"' then '"' :: '"' :: escQuotes rest else c :: escQuotes rest

/-! ## The identifier module (internal/ident)

Errors produced by the module are `fmt.Errorf("invalid identifier: %s", s)`;
the spec calls this the `InvalidIdentifier` error carrying the rejected
string, which is all that matters behaviourally. -/

inductive IdentError where
  | invalidIdentifier (s : String)
deriving DecidableEq

/-- `IsValid` reports whether `s` is a valid SQL identifier or dotted
identifier path: the anchored regex must match, and every dot-separated part
must have byte length in `[1, 63]`. -/
def IsValid (s : String) : Bool :=
  reMatch s.data &&
    (splitCh '.' s.data).all fun p => !(decide (goLen p = 0) || decide (goLen p > 63))

/-- Model of Go's `unicode.IsLetter`, exact on code points below `0x100`
(ASCII letters plus the Latin-1 letters `0xAA`, `0xB5`, `0xBA`,
`0xC0`-`0xD6`, `0xD8`-`0xF6`, `0xF8`-`0xFF`).  Above `0xFF` Go consults the
full Unicode category tables; those code points are classified as
non-letters here, and no claim settled in this file depends on them. -/
def goIsLetter (c : Char) : Bool :=
  (decide ('A'.toNat ≤ c.toNat) && decide (c.toNat ≤ 'Z'.toNat)) ||
  (decide ('a'.toNat ≤ c.toNat) && decide (c.toNat ≤ 'z'.toNat)) ||
  decide (c.toNat = 0xAA) || decide (c.toNat = 0xB5) || decide (c.toNat = 0xBA) ||
  (decide (0xC0 ≤ c.toNat) && decide (c.toNat ≤ 0xD6)) ||
  (decide (0xD8 ≤ c.toNat) && decide (c.toNat ≤ 0xF6)) ||
  (decide (0xF8 ≤ c.toNat) && decide (c.toNat ≤ 0xFF))

/-- Model of Go's `unicode.IsDigit` (Unicode category Nd), exact on code
points below `0x100`: only the ASCII digits.  Decimal digits above `0xFF`
are classified as non-digits here, and no claim settled in this file
depends on them. -/
def goIsDigit (c : Char) : Bool :=
  decide ('0'.toNat ≤ c.toNat) && decide (c.toNat ≤ '9'.toNat)

/-- `IsSafeSegment` reports whether `s` is a safe single identifier segment:
non-empty, Go `len` (bytes) at most 63, and every rune a letter, digit,
underscore or hyphen. -/
def IsSafeSegment (s : String) : Bool :=
  if s == "" || decide (goLen s.data > 63) then false
  else s.data.all fun r => goIsLetter r || goIsDigit r || r == '_' || r == '-'

/-- One quoted segment of `Quote`: wrap in double quotes after doubling any
embedded double quote. -/
def quoteSeg (p : List Char) : List Char := '"' :: (escQuotes p ++ ['"'])

/-- `Quote` validates and returns a safely quoted identifier path.  On
failure it returns the empty string together with the error, mirroring the
Go `(string, error)` pair. -/
def Quote (s : String) : String × Option IdentError :=
  if IsValid s then
    (String.mk (joinCh '.' ((splitCh '.' s.data).map quoteSeg)), none)
  else
    ("", some (.invalidIdentifier s))

/-- `SplitAndValidateCSV` splits a comma-separated list and validates each
identifier, failing on the first invalid one. -/
def SplitAndValidateCSV (s : String) : List String × Option IdentError :=
  if s == "" then ([], none)
  else
    let parts := (splitCh ',' s.data).map String.mk
    match parts.find? (fun p => !IsValid p) with
    | some p => ([], some (.invalidIdentifier p))
    | none => (parts, none)

/-! ## The template function registry (template/funcregistry.go)

`TemplateData` is a `map[string]interface{}`; its values are modelled by
`Val`.  The only dynamic types the registry inspects are `string` and
`[]string`; `Val.vnil` is the `nil` interface value (what a lookup of a
missing key yields), and `Val.box` stands for any other value a caller may
have stored. -/

inductive Val where
  | str (s : String)
  | strList (l : List String)
  | vnil
  | box (n : Nat)
deriving DecidableEq

/-- The `FuncRegistry` struct: `TemplateData`, the `Args` slice, and the
`next` placeholder counter.  The Go map is modelled as an association list
with unique keys looked up by first match. -/
structure FR where
  templateData : List (String × Val)
  args : List Val
  next : Nat
deriving DecidableEq

def lookupTD (td : List (String × Val)) (k : String) : Option Val :=
  match td with
  | [] => none
  | (k₁, v) :: rest => if k₁ == k then some v else lookupTD rest k

/-- `fr.TemplateData[key]` as a value: a missing key reads as the `nil`
interface value. -/
def lookupVal (td : List (String × Val)) (k : String) : Val :=
  (lookupTD td k).getD .vnil

/-- Go map assignment `td[k] = v` (replaces an existing binding, otherwise
appends). -/
def setTD (td : List (String × Val)) (k : String) (v : Val) : List (String × Val) :=
  match td with
  | [] => [(k, v)]
  | (k₁, v₁) :: rest => if k₁ == k then (k, v) :: rest else (k₁, v₁) :: setTD rest k v

/-- `isSet`: comma-ok presence test on `TemplateData`. -/
def isSet (fr : FR) (k : String) : Bool := (lookupTD fr.templateData k).isSome

/-- `defaultOrValue`: insert `dflt` under `k` when absent, then return the
value now stored at `k`.  Returns the value and the updated registry. -/
def defaultOrValue (fr : FR) (k dflt : String) : Val × FR :=
  let fr₁ := if isSet fr k then fr
             else { fr with templateData := setTD fr.templateData k (.str dflt) }
  (lookupVal fr₁.templateData k, fr₁)

/-- Go's `fmt.Sprintf("%v", x)` on the modelled values (`[]string` prints
as its space-separated bracketed form, the nil interface as `<nil>`). -/
def goFmtV : Val → String
  | .str s => s
  | .strList l => "[" ++ String.intercalate " " l ++ "]"
  | .vnil => "<nil>"
  | .box n => toString n

/-- `inFormat`: unparameterized `IN`-list literal interpolation. -/
def inFormat (fr : FR) (k : String) : String :=
  match lookupTD fr.templateData k with
  | some (.strList items) => "('" ++ String.intercalate "', '" items ++ "')"
  | some v => "('" ++ goFmtV v ++ "')"
  | none => "('" ++ goFmtV .vnil ++ "')"

/-! ### Pagination (`LimitOffset` and its lenient wrapper) -/

/-- Model of Go's `strconv.Atoi` on a 64-bit platform: an optional sign
followed by at least one ASCII digit, value within the `int64` range;
anything else (including out-of-range values, for which Go reports
`ErrRange`) is an error. -/
def atoi (s : String) : Option Int :=
  match s.data with
  | [] => none
  | c :: rest =>
    let p := if c == '-' then (true, rest)
             else if c == '+' then (false, rest)
             else (false, c :: rest)
    if p.2.isEmpty || !p.2.all goIsDigit then none
    else
      let n : Nat := p.2.foldl (fun a d => a * 10 + (d.toNat - '0'.toNat)) 0
      let v : Int := if p.1 then -(n : Int) else (n : Int)
      if decide (-(2 ^ 63 : Int) ≤ v) && decide (v ≤ 2 ^ 63 - 1) then some v else none

/-- Wrap an integer into the two's-complement `int64` range; Go's `int`
arithmetic overflows by wrapping. -/
def int64Wrap (x : Int) : Int := (x + 2 ^ 63) % 2 ^ 64 - 2 ^ 63

/-- `LimitOffset`: parse both arguments, fail on either parse error, replace
the page number by 1 when `pageNumber-1 < 0` (computed in wrapping machine
arithmetic, as in Go), and format the pagination text. -/
def LimitOffset (pageNumberStr pageSizeStr : String) : String × Option Unit :=
  match atoi pageNumberStr with
  | none => ("", some ())
  | some pageNumber =>
    match atoi pageSizeStr with
    | none => ("", some ())
    | some pageSize =>
      let pn := if int64Wrap (pageNumber - 1) < 0 then 1 else pageNumber
      ("LIMIT " ++ toString pageSize ++ " OFFSET(" ++ toString pn ++ " - 1) * "
         ++ toString pageSize, none)

/-- The template-facing wrapper: swallow the error, returning `""`. -/
def limitOffset (pageNumber pageSize : String) : String :=
  match LimitOffset pageNumber pageSize with
  | (v, none) => v
  | (_, some _) => ""

/-! ### Positional binding (`sqlVal`, `sqlList`) -/

/-- `sqlVal`: append the value at `key` to `Args`, bump the counter, return
the placeholder `$<next>`. -/
def sqlVal (fr : FR) (k : String) : String × FR :=
  let v := lookupVal fr.templateData k
  let fr₁ := { fr with args := fr.args ++ [v], next := fr.next + 1 }
  ("$" ++ toString fr₁.next, fr₁)

/-- The `for` loop of `sqlList` over a `[]string` value: appends each
element, bumps the counter, and records the placeholder for each element. -/
def sqlListLoop (fr : FR) : List String → FR × List String
  | [] => (fr, [])
  | x :: xs =>
    let fr₁ := { fr with args := fr.args ++ [Val.str x], next := fr.next + 1 }
    let r := sqlListLoop fr₁ xs
    (r.1, ("$" ++ toString fr₁.next) :: r.2)

/-- `sqlList`: for a `[]string` value, one placeholder per element joined
with commas in parentheses; for any other value (including a missing key),
append it once and return a single parenthesized placeholder. -/
def sqlList (fr : FR) (k : String) : String × FR :=
  match lookupTD fr.templateData k with
  | some (.strList s) =>
    let r := sqlListLoop fr s
    ("(" ++ String.intercalate "," r.2 ++ ")", r.1)
  | _ =>
    let v := lookupVal fr.templateData k
    let fr₁ := { fr with args := fr.args ++ [v], next := fr.next + 1 }
    ("($" ++ toString fr₁.next ++ ")", fr₁)

/-- `ident`: type-assert the value at `key` to a string (anything else
reads as `""`), check the identifier regex (`identRe`, the same pattern as
the ident module's `re`), and wrap each dot-separated part in double quotes
without escaping.  No per-part length check is performed here. -/
def ident (fr : FR) (k : String) : String × Option IdentError :=
  let s := match lookupTD fr.templateData k with
           | some (.str t) => t
           | _ => ""
  if reMatch s.data then
    (String.mk (joinCh '.' ((splitCh '.' s.data).map (fun p => '"' :: (p ++ ['"'])))), none)
  else
    ("", some (.invalidIdentifier s))

/-! ### The registry operations as a state machine -/

/-- One invocation of a registry function, with its arguments. -/
inductive Op where
  | isSet (k : String)
  | defaultOrValue (k dflt : String)
  | inFormat (k : String)
  | unEscape (s : String)
  | split (orig sep : String)
  | limitOffset (pageNumber pageSize : String)
  | sqlVal (k : String)
  | sqlList (k : String)
  | ident (k : String)
deriving DecidableEq

/-- The effect of each registry function on the registry state.  Functions
whose Go bodies never assign to a field of `fr` or write through the
`TemplateData` map (`isSet`, `inFormat`, `unEscape`, `split`,
`limitOffset`, `ident` only read; `unEscape` and `split` are pure functions
of their arguments) leave the state unchanged. -/
def applyOp (fr : FR) : Op → FR
  | .isSet _ => fr
  | .defaultOrValue k d => (defaultOrValue fr k d).2
  | .inFormat _ => fr
  | .unEscape _ => fr
  | .split _ _ => fr
  | .limitOffset _ _ => fr
  | .sqlVal k => (sqlVal fr k).2
  | .sqlList k => (sqlList fr k).2
  | .ident _ => fr

/-! ### Runs of `sqlVal`/`sqlList` calls (one render) -/

/-- A call to one of the two positional-binding functions. -/
inductive SqlCall where
  | val (k : String)
  | list (k : String)
deriving DecidableEq

def applyCall (fr : FR) : SqlCall → String × FR
  | .val k => sqlVal fr k
  | .list k => sqlList fr k

/-- Run a sequence of binding calls, collecting the emitted placeholder
text of each call. -/
def runCalls (fr : FR) : List SqlCall → FR × List String
  | [] => (fr, [])
  | c :: cs =>
    let r := applyCall fr c
    let rest := runCalls r.2 cs
    (rest.1, r.1 :: rest.2)

/-! ## Spec-side vocabulary

Definitions used only to state the claims in the spec's own terms; the
theorems below relate them to the embedded code. -/

/-- A single segment matches `[A-Za-z_][A-Za-z0-9_]*`: non-empty, the first
character a letter or underscore, the rest word characters. -/
def segPat : List Char → Bool
  | [] => false
  | c :: rest => isStartChar c && rest.all isWordChar

/-- The placeholder token for ordinal `n`. -/
def phString (n : Nat) : String := "$" ++ toString n

/-- The values a binding call appends to the Argument List, in the spec's
words: `sqlVal` binds the single value at the key; `sqlList` binds each
element of a string sequence, or the raw value once otherwise. -/
def boundVals (fr : FR) : SqlCall → List Val
  | .val k => [lookupVal fr.templateData k]
  | .list k =>
    match lookupTD fr.templateData k with
    | some (.strList l) => l.map Val.str
    | _ => [lookupVal fr.templateData k]

/-- The output the spec prescribes for a binding call: placeholder ordinals
are the 1-based positions the bound values take in the Argument List at the
moment of emission (the list currently holds `fr.args.length` values). -/
def specOut (fr : FR) : SqlCall → String
  | .val _ => phString (fr.args.length + 1)
  | .list k =>
    match lookupTD fr.templateData k with
    | some (.strList l) =>
      "(" ++ String.intercalate ","
        ((List.range l.length).map fun i => phString (fr.args.length + 1 + i)) ++ ")"
    | _ => "(" ++ phString (fr.args.length + 1) ++ ")"

/-- The outputs the spec prescribes for a whole run. -/
def specOuts (fr : FR) : List SqlCall → List String
  | [] => []
  | c :: cs => specOut fr c :: specOuts (applyCall fr c).2 cs

/-- The placeholder ordinals the spec prescribes for a whole run: each call
emits the ordinals of the positions its bound values take. -/
def specOrds (fr : FR) : List SqlCall → List Nat
  | [] => []
  | c :: cs =>
    List.range' (fr.args.length + 1) (boundVals fr c).length ++ specOrds (applyCall fr c).2 cs

/-- All values bound over a whole run, in binding order. -/
def boundRun (fr : FR) : List SqlCall → List Val
  | [] => []
  | c :: cs => boundVals fr c ++ boundRun (applyCall fr c).2 cs

/-- A concrete registry used to evaluate the theorems below on the spec's
end-to-end example: `id` bound to an opaque scalar, `names` to
`["a", "b"]`, empty Argument List, counter 0. -/
def demoFR : FR := ⟨[("id", Val.box 7), ("names", Val.strList ["a", "b"])], [], 0⟩

/-- The spec's example render: `sqlVal("id")` then `sqlList("names")`. -/
def demoCalls : List SqlCall := [.val "id", .list "names"]

/-! ## Helper lemmas -/

lemma splitCh_ne_nil (sep : Char) (l : List Char) : splitCh sep l ≠ [] := by
  induction l with
  | nil => simp [splitCh]
  | cons c rest ih =>
    rcases hr : splitCh sep rest with _ | ⟨h, t⟩
    · exact absurd hr ih
    · simp only [splitCh, hr]
      split <;> simp

lemma splitCh_cons_eq (sep : Char) (l : List Char) :
    ∃ h t, splitCh sep l = h :: t := by
  rcases hsp : splitCh sep l with _ | ⟨h, t⟩
  · exact absurd hsp (splitCh_ne_nil _ _)
  · exact ⟨h, t, rfl⟩

lemma isWordChar_of_start {c : Char} (h : isStartChar c = true) : isWordChar c = true := by
  simp [isWordChar, h]

/-- The automaton `reRun` agrees with the segment-wise reading of the
regular expression, in both of its states. -/
lemma reRun_iff (l : List Char) :
    (reRun true l = true ↔ ∀ p ∈ splitCh '.' l, segPat p = true) ∧
    (reRun false l = true ↔
      ((splitCh '.' l).headI.all isWordChar = true ∧
        ∀ p ∈ (splitCh '.' l).tail, segPat p = true)) := by
  induction l with
  | nil =>
    constructor
    · simp [reRun, splitCh, segPat]
    · simp [reRun, splitCh]
  | cons c rest ih =>
    obtain ⟨h, t, hr⟩ := splitCh_cons_eq '.' rest
    by_cases hdot : c = '.'
    · subst hdot
      have hs : isStartChar '.' = false := by decide
      have hw : isWordChar '.' = false := by decide
      constructor
      · simp [reRun, hs, splitCh, hr, segPat]
      · simp only [reRun, hw, Bool.false_eq_true, if_false, beq_self_eq_true, if_true,
          splitCh, hr, List.headI, List.tail_cons, List.all_nil, true_and]
        rw [(ih.1).symm.symm]
        rw [hr]
    · have hne : (c == '.') = false := by simp [hdot]
      by_cases hw : isWordChar c = true
      · constructor
        · simp only [reRun, Bool.and_eq_true, splitCh, hr, hne, Bool.false_eq_true, if_false,
            List.mem_cons, forall_eq_or_imp, segPat, List.all_eq_true]
          rw [ih.2, hr]
          simp only [List.headI, List.tail_cons, List.all_eq_true]
          tauto
        · simp only [reRun, hw, if_true, splitCh, hr, hne, Bool.false_eq_true, if_false,
            List.headI, List.tail_cons, List.all_cons, hw, Bool.true_and]
          rw [ih.2, hr]
          simp [List.headI]
      · have hs : isStartChar c = false := by
          by_contra hcon
          simp only [Bool.not_eq_false] at hcon
          exact hw (isWordChar_of_start hcon)
        have hwf : isWordChar c = false := by simpa using hw
        constructor
        · simp [reRun, hs, splitCh, hr, hne, segPat]
        · simp [reRun, hwf, hne, splitCh, hr, List.headI]

lemma reMatch_iff (l : List Char) :
    reMatch l = true ↔ ∀ p ∈ splitCh '.' l, segPat p = true :=
  (reRun_iff l).1

lemma charSize_of_word {c : Char} (h : isWordChar c = true) : charSize c = 1 := by
  have hle : c.toNat ≤ 127 := by
    simp only [isWordChar, isStartChar, Bool.or_eq_true, Bool.and_eq_true,
      decide_eq_true_eq, show 'A'.toNat = 65 from rfl, show 'Z'.toNat = 90 from rfl,
      show 'a'.toNat = 97 from rfl, show 'z'.toNat = 122 from rfl,
      show '_'.toNat = 95 from rfl, show '0'.toNat = 48 from rfl,
      show '9'.toNat = 57 from rfl] at h
    omega
  simp only [charSize]
  rw [if_pos (by omega)]

lemma goLen_cons (c : Char) (l : List Char) : goLen (c :: l) = charSize c + goLen l := by
  simp [goLen]

lemma goLen_eq_length_of_word :
    ∀ l : List Char, (∀ x ∈ l, isWordChar x = true) → goLen l = l.length := by
  intro l h
  induction l with
  | nil => rfl
  | cons c rest ih =>
    rw [goLen_cons, charSize_of_word (h c (by simp)), ih fun x hx => h x (by simp [hx])]
    simp only [List.length_cons]
    omega

lemma segPat_word {p : List Char} (h : segPat p = true) : ∀ x ∈ p, isWordChar x = true := by
  match p with
  | [] => simp [segPat] at h
  | c :: rest =>
    simp only [segPat, Bool.and_eq_true, List.all_eq_true] at h
    intro x hx
    rcases List.mem_cons.mp hx with hx | hx
    · exact hx ▸ isWordChar_of_start h.1
    · exact h.2 x hx

lemma goLen_of_segPat {p : List Char} (h : segPat p = true) : goLen p = p.length :=
  goLen_eq_length_of_word p (segPat_word h)

lemma segPat_ne_nil {p : List Char} (h : segPat p = true) : p ≠ [] := by
  intro hnil
  subst hnil
  simp [segPat] at h

lemma word_ne_quote {c : Char} (h : isWordChar c = true) : ¬c = '"' := by
  intro hc
  subst hc
  revert h
  decide

lemma escQuotes_eq_self {p : List Char} (h : ∀ x ∈ p, ¬x = '"') : escQuotes p = p := by
  induction p with
  | nil => rfl
  | cons c rest ih =>
    have hc : (c == '"') = false := by simp [h c (by simp)]
    simp only [escQuotes, hc, Bool.false_eq_true, if_false, List.cons.injEq, true_and]
    exact ih fun x hx => h x (by simp [hx])

lemma joinCh_cons (sep c : Char) (h : List Char) (t : List (List Char)) :
    joinCh sep ((c :: h) :: t) = c :: joinCh sep (h :: t) := by
  cases t <;> simp [joinCh]

lemma joinCh_splitCh (sep : Char) : ∀ l : List Char, joinCh sep (splitCh sep l) = l := by
  intro l
  induction l with
  | nil => rfl
  | cons c rest ih =>
    obtain ⟨h, t, hr⟩ := splitCh_cons_eq sep rest
    by_cases hc : c = sep
    · subst hc
      simp only [splitCh, hr, beq_self_eq_true, if_true]
      show [] ++ c :: joinCh c (h :: t) = c :: rest
      rw [← hr, ih]
      simp
    · have hne : (c == sep) = false := by simp [hc]
      simp only [splitCh, hr, hne, Bool.false_eq_true, if_false]
      rw [joinCh_cons, ← hr, ih]

lemma filter_quote_join :
    ∀ ps : List (List Char), (∀ p ∈ ps, ∀ x ∈ p, ¬x = '"') →
      (joinCh '.' (ps.map fun p => '"' :: (p ++ ['"']))).filter (fun c => !(c == '"'))
        = joinCh '.' ps := by
  intro ps h
  induction ps with
  | nil => rfl
  | cons p ps ih =>
    have hp : p.filter (fun c => !(c == '"')) = p := by
      rw [List.filter_eq_self]
      intro a ha
      simp [h p (by simp) a ha]
    cases ps with
    | nil =>
      show (('"' :: (p ++ ['"'])).filter fun c => !(c == '"')) = p
      simp [List.filter_append, hp]
    | cons q t =>
      have hrest : ∀ r ∈ q :: t, ∀ x ∈ r, ¬x = '"' := fun r hr => h r (by simp [hr])
      show ((('"' :: (p ++ ['"'])) ++ '.' ::
          joinCh '.' ((q :: t).map fun r => '"' :: (r ++ ['"']))).filter
            fun c => !(c == '"')) = p ++ '.' :: joinCh '.' (q :: t)
      simp only [List.filter_append, List.filter_cons,
        show ((!('"' == '"')) : Bool) = false from rfl,
        show ((!('.' == '"')) : Bool) = true from rfl, if_true, if_false, Bool.false_eq_true]
      rw [hp, ih hrest]
      simp

lemma segs_no_quote {s : String} (h : IsValid s = true) :
    ∀ p ∈ splitCh '.' s.data, ∀ x ∈ p, ¬x = '"' := by
  intro p hp x hx
  have hre : reMatch s.data = true := by
    simp only [IsValid, Bool.and_eq_true] at h
    exact h.1
  exact word_ne_quote (segPat_word ((reMatch_iff s.data).mp hre p hp) x hx)

lemma quote_valid_data {s : String} (h : IsValid s = true) :
    (Quote s).1.data
      = joinCh '.' ((splitCh '.' s.data).map fun p => '"' :: (p ++ ['"'])) := by
  simp only [Quote, h, if_true]
  show joinCh '.' ((splitCh '.' s.data).map quoteSeg) = _
  congr 1
  apply List.map_congr_left
  intro p hp
  simp only [quoteSeg, escQuotes_eq_self (segs_no_quote h p hp)]

lemma quote_recover {s : String} (h : IsValid s = true) :
    ((Quote s).1.data).filter (fun c => !(c == '"')) = s.data := by
  rw [quote_valid_data h, filter_quote_join _ (segs_no_quote h), joinCh_splitCh]

lemma quote_none_iff {s : String} : (Quote s).2 = none ↔ IsValid s = true := by
  by_cases h : IsValid s = true <;> simp [Quote, h]

lemma isValid_rematch {s : String} (h : IsValid s = true) : reMatch s.data = true := by
  simp only [IsValid, Bool.and_eq_true] at h
  exact h.1

lemma FR.ext2 {a b : FR} (h1 : a.templateData = b.templateData) (h2 : a.args = b.args)
    (h3 : a.next = b.next) : a = b := by
  cases a
  cases b
  simp_all

lemma lookupTD_setTD_self (td : List (String × Val)) (k : String) (v : Val) :
    lookupTD (setTD td k v) k = some v := by
  induction td with
  | nil => simp [setTD, lookupTD]
  | cons kv rest ih =>
    obtain ⟨k₁, v₁⟩ := kv
    by_cases hk : (k₁ == k) = true
    · simp [setTD, hk, lookupTD]
    · simp only [setTD, hk, Bool.false_eq_true, if_false]
      simp only [lookupTD, hk, Bool.false_eq_true, if_false]
      exact ih

lemma sqlListLoop_td : ∀ (l : List String) (fr : FR),
    (sqlListLoop fr l).1.templateData = fr.templateData := by
  intro l
  induction l with
  | nil => intro fr; rfl
  | cons x xs ih => intro fr; exact ih _

lemma atoi_range : ∀ (s : String) (v : Int), atoi s = some v →
    -(2 ^ 63) ≤ v ∧ v ≤ 2 ^ 63 - 1 := by
  intro s v h
  unfold atoi at h
  rcases hd : s.data with _ | ⟨c, rest⟩ <;> rw [hd] at h
  · cases h
  · dsimp only at h
    generalize (if c == '-' then (true, rest)
        else if c == '+' then (false, rest) else (false, c :: rest)) = q at h
    split_ifs at h with h1 h2 h3 h4
    all_goals cases h
    all_goals first
      | simpa using h3
      | simpa using h4

lemma int64Wrap_eq {x : Int} (h1 : -(2 ^ 63) ≤ x) (h2 : x ≤ 2 ^ 63 - 1) :
    int64Wrap x = x := by
  unfold int64Wrap
  rw [Int.emod_eq_of_lt (by omega) (by omega)]
  omega

lemma find_first {α : Type} (f : α → Bool) :
    ∀ (l₁ : List α) (p : α) (l₂ : List α), (∀ q ∈ l₁, f q = false) → f p = true →
      List.find? f (l₁ ++ p :: l₂) = some p := by
  intro l₁ p l₂ h hf
  induction l₁ with
  | nil => simp [List.find?_cons, hf]
  | cons a l ih =>
    rw [List.cons_append, List.find?_cons]
    simp only [h a (by simp), Bool.false_eq_true, if_false]
    exact ih fun q hq => h q (by simp [hq])

lemma sqlListLoop_spec : ∀ (l : List String) (fr : FR),
    (sqlListLoop fr l).1.args = fr.args ++ l.map Val.str ∧
    (sqlListLoop fr l).1.next = fr.next + l.length ∧
    (sqlListLoop fr l).2
      = (List.range l.length).map fun i => "$" ++ toString (fr.next + 1 + i) := by
  intro l
  induction l with
  | nil => intro fr; simp [sqlListLoop]
  | cons x xs ih =>
    intro fr
    obtain ⟨h1, h2, h3⟩ := ih { fr with args := fr.args ++ [Val.str x], next := fr.next + 1 }
    refine ⟨?_, ?_, ?_⟩
    · simp only [sqlListLoop, h1]
      simp
    · simp only [sqlListLoop, h2]
      show fr.next + 1 + xs.length = fr.next + (x :: xs).length
      simp only [List.length_cons]
      omega
    · simp only [sqlListLoop, h3]
      show ("$" ++ toString (fr.next + 1)) :: (List.range xs.length).map
            (fun i => "$" ++ toString (fr.next + 1 + 1 + i))
          = (List.range (x :: xs).length).map fun i => "$" ++ toString (fr.next + 1 + i)
      rw [List.length_cons, List.range_succ_eq_map, List.map_cons, List.map_map]
      congr 1
      apply List.map_congr_left
      intro i _
      simp only [Function.comp_apply]
      congr 2
      omega

lemma string_paren_ph (t : String) : "(" ++ ("$" ++ t) ++ ")" = "($" ++ t ++ ")" := by
  rw [← String.append_assoc "(" "$" t]
  rfl

lemma applyCall_spec (fr : FR) (c : SqlCall) (h : fr.next = fr.args.length) :
    (applyCall fr c).2.templateData = fr.templateData ∧
    (applyCall fr c).2.args = fr.args ++ boundVals fr c ∧
    (applyCall fr c).2.next = (applyCall fr c).2.args.length ∧
    (applyCall fr c).1 = specOut fr c := by
  cases c with
  | val k =>
    refine ⟨rfl, rfl, ?_, ?_⟩
    · show fr.next + 1 = (fr.args ++ [lookupVal fr.templateData k]).length
      simp only [List.length_append, List.length_cons, List.length_nil]
      omega
    · show "$" ++ toString (fr.next + 1) = phString (fr.args.length + 1)
      rw [phString, h]
  | list k =>
    rcases hv : lookupTD fr.templateData k with _ | v
    · refine ⟨?_, ?_, ?_, ?_⟩
      · simp [applyCall, sqlList, hv]
      · simp [applyCall, sqlList, hv, boundVals]
      · simp [applyCall, sqlList, hv]
        omega
      · simp only [applyCall, sqlList, hv, specOut, phString]
        rw [string_paren_ph, h]
    · cases v with
      | strList l =>
        obtain ⟨g1, g2, g3⟩ := sqlListLoop_spec l fr
        refine ⟨?_, ?_, ?_, ?_⟩
        · simp only [applyCall, sqlList, hv]
          exact sqlListLoop_td l fr
        · simp only [applyCall, sqlList, hv, boundVals, g1]
        · simp only [applyCall, sqlList, hv, g1, g2, List.length_append, List.length_map]
          omega
        · simp only [applyCall, sqlList, hv, g3, specOut, phString, h]
      | str s =>
        refine ⟨?_, ?_, ?_, ?_⟩
        · simp [applyCall, sqlList, hv]
        · simp [applyCall, sqlList, hv, boundVals]
        · simp [applyCall, sqlList, hv]
          omega
        · simp only [applyCall, sqlList, hv, specOut, phString]
          rw [string_paren_ph, h]
      | vnil =>
        refine ⟨?_, ?_, ?_, ?_⟩
        · simp [applyCall, sqlList, hv]
        · simp [applyCall, sqlList, hv, boundVals]
        · simp [applyCall, sqlList, hv]
          omega
        · simp only [applyCall, sqlList, hv, specOut, phString]
          rw [string_paren_ph, h]
      | box n =>
        refine ⟨?_, ?_, ?_, ?_⟩
        · simp [applyCall, sqlList, hv]
        · simp [applyCall, sqlList, hv, boundVals]
        · simp [applyCall, sqlList, hv]
          omega
        · simp only [applyCall, sqlList, hv, specOut, phString]
          rw [string_paren_ph, h]

lemma runCalls_spec : ∀ (cs : List SqlCall) (fr : FR), fr.next = fr.args.length →
    (runCalls fr cs).1.args = fr.args ++ boundRun fr cs ∧
    (runCalls fr cs).1.next = (runCalls fr cs).1.args.length ∧
    (runCalls fr cs).2 = specOuts fr cs := by
  intro cs
  induction cs with
  | nil =>
    intro fr h
    exact ⟨by simp [runCalls, boundRun], h, rfl⟩
  | cons c cs ih =>
    intro fr h
    obtain ⟨h1, h2, h3, h4⟩ := applyCall_spec fr c h
    obtain ⟨g1, g2, g3⟩ := ih (applyCall fr c).2 h3
    refine ⟨?_, ?_, ?_⟩
    · show (runCalls (applyCall fr c).2 cs).1.args = _
      rw [g1, h2, boundRun, List.append_assoc]
    · exact g2
    · show (applyCall fr c).1 :: (runCalls (applyCall fr c).2 cs).2 = _
      rw [g3, h4, specOuts]

lemma specOrds_range : ∀ (cs : List SqlCall) (fr : FR), fr.next = fr.args.length →
    specOrds fr cs = List.range' (fr.args.length + 1) (boundRun fr cs).length := by
  intro cs
  induction cs with
  | nil => intro fr h; rfl
  | cons c cs ih =>
    intro fr h
    obtain ⟨h1, h2, h3, h4⟩ := applyCall_spec fr c h
    rw [specOrds, ih (applyCall fr c).2 h3, h2, boundRun]
    simp only [List.length_append]
    rw [show fr.args.length + (boundVals fr c).length + 1
        = fr.args.length + 1 + 1 * (boundVals fr c).length from by omega]
    rw [List.range'_append]
    congr 1
    omega

/-! ## Claims -/

/-- C1: `IsValid s` holds iff `s` has at least one dot-separated segment and
every segment is non-empty, at most 63 characters long, and matches
`[A-Za-z_][A-Za-z0-9_]*`. -/
theorem isValid_iff_segments (s : String) :
    IsValid s = true ↔
      splitCh '.' s.data ≠ [] ∧
        ∀ p ∈ splitCh '.' s.data, p ≠ [] ∧ p.length ≤ 63 ∧ segPat p = true := by
  unfold IsValid
  rw [Bool.and_eq_true, reMatch_iff, List.all_eq_true]
  constructor
  · rintro ⟨hpat, hlen⟩
    refine ⟨splitCh_ne_nil _ _, fun p hp => ?_⟩
    have hp1 := hpat p hp
    have hp2 := hlen p hp
    simp only [Bool.not_eq_eq_eq_not, Bool.not_true, Bool.or_eq_false_iff,
      decide_eq_false_iff_not] at hp2
    have hlen_eq := goLen_of_segPat hp1
    exact ⟨segPat_ne_nil hp1, by omega, hp1⟩
  · rintro ⟨-, hall⟩
    refine ⟨fun p hp => (hall p hp).2.2, fun p hp => ?_⟩
    obtain ⟨hne, h63, hpat⟩ := hall p hp
    have hlen_eq := goLen_of_segPat hpat
    have hpos : 0 < p.length := List.length_pos.mpr hne
    simp only [Bool.not_eq_eq_eq_not, Bool.not_true, Bool.or_eq_false_iff,
      decide_eq_false_iff_not]
    omega

/-- C1 witness: concrete evaluation of both sides on `"ab.cd"`. -/
theorem isValid_iff_segments_w : IsValid "ab.cd" = true :=
  (isValid_iff_segments "ab.cd").mpr (by decide)

/-- C2: `Quote` succeeds exactly on valid identifiers; on failure it
returns the empty string and the `InvalidIdentifier` error carrying the
rejected input; on success it splits on `.`, doubles embedded quotes,
wraps each segment in double quotes and rejoins with `.`; and it is
injective on valid inputs. -/
theorem quote_spec (s₁ s₂ : String) :
    ((Quote s₁).2 = none ↔ IsValid s₁ = true) ∧
    (IsValid s₁ = false → Quote s₁ = ("", some (.invalidIdentifier s₁))) ∧
    (IsValid s₁ = true →
      (Quote s₁).1 = String.mk (joinCh '.' ((splitCh '.' s₁.data).map
        fun p => '"' :: (escQuotes p ++ ['"'])))) ∧
    (IsValid s₁ = true → IsValid s₂ = true → s₁ ≠ s₂ → (Quote s₁).1 ≠ (Quote s₂).1) := by
  refine ⟨?_, ?_, ?_, ?_⟩
  · by_cases h : IsValid s₁ = true <;> simp [Quote, h]
  · intro h
    simp [Quote, h]
  · intro h
    simp only [Quote, h, if_true]
    rfl
  · intro h1 h2 hne heq
    apply hne
    apply String.ext
    have hd : (Quote s₁).1.data = (Quote s₂).1.data := congrArg String.data heq
    have hf := congrArg (List.filter fun c => !(c == '"')) hd
    rwa [quote_recover h1, quote_recover h2] at hf

/-- C2 witness: concrete evaluation at `"a.b"` and `"ab"`. -/
theorem quote_spec_w :
    IsValid "a.b" = true ∧ IsValid "ab" = true ∧ ("a.b" == "ab") = false ∧
      ((Quote "a.b").1 == (Quote "ab").1) = false ∧ (Quote "a.b").1 = "\"a\".\"b\"" :=
  ⟨by decide, by decide, by decide,
    beq_eq_false_iff_ne.mpr
      ((quote_spec "a.b" "ab").2.2.2 (by decide) (by decide) (by decide)),
    by decide⟩

/-- C5: `SplitAndValidateCSV ""` yields an empty result with no error; for
non-empty input it splits on `,` and either returns exactly the pieces (all
valid) or no partial result together with an error naming the first invalid
piece. -/
theorem splitCSV_spec :
    SplitAndValidateCSV "" = ([], none) ∧
    ∀ s : String, s ≠ "" →
      ((∀ p ∈ (splitCh ',' s.data).map String.mk, IsValid p = true) →
        SplitAndValidateCSV s = ((splitCh ',' s.data).map String.mk, none)) ∧
      (∀ l₁ p l₂, (splitCh ',' s.data).map String.mk = l₁ ++ p :: l₂ →
        (∀ q ∈ l₁, IsValid q = true) → IsValid p = false →
        SplitAndValidateCSV s = ([], some (.invalidIdentifier p))) := by
  refine ⟨rfl, fun s hs => ?_⟩
  have hbeq : (s == "") = false := by simp [hs]
  constructor
  · intro hall
    have hnone : ((splitCh ',' s.data).map String.mk).find? (fun p => !IsValid p) = none := by
      rw [List.find?_eq_none]
      intro x hx
      simp [hall x hx]
    simp only [SplitAndValidateCSV, hbeq, Bool.false_eq_true, if_false, hnone]
  · intro l₁ p l₂ hsplit hvalid hinv
    have hfind : ((splitCh ',' s.data).map String.mk).find? (fun p => !IsValid p) = some p := by
      rw [hsplit]
      exact find_first _ l₁ p l₂ (fun q hq => by simp [hvalid q hq]) (by simp [hinv])
    simp only [SplitAndValidateCSV, hbeq, Bool.false_eq_true, if_false, hfind]

/-- C5 witness: the all-valid and first-invalid branches at concrete
inputs. -/
theorem splitCSV_spec_w :
    (("a,b" == "") = false ∧ SplitAndValidateCSV "a,b" = (["a", "b"], none)) ∧
      (("a,b;x,c" == "") = false ∧
        SplitAndValidateCSV "a,b;x,c" = ([], some (.invalidIdentifier "b;x"))) :=
  ⟨⟨by decide, by
      rw [(splitCSV_spec.2 "a,b" (by decide)).1 (by decide)]
      decide⟩,
    ⟨by decide,
      (splitCSV_spec.2 "a,b;x,c" (by decide)).2 ["a"] "b;x" ["c"] (by decide) (by decide)
        (by decide)⟩⟩

/-- C6 counterexample: 32 copies of `é` form a string of 32 characters, all
letters, yet `IsSafeSegment` rejects it — the length bound is on UTF-8
bytes (Go `len`), not characters, so the claim as stated fails. -/
theorem safeSegment_cex :
    IsSafeSegment (String.mk (List.replicate 32 'é')) = false ∧
      (String.mk (List.replicate 32 'é') == "") = false ∧
      (String.mk (List.replicate 32 'é')).length ≤ 63 ∧
      ((String.mk (List.replicate 32 'é')).data.all
        fun c => goIsLetter c || goIsDigit c || c == '_' || c == '-') = true := by
  decide

/-- C6 amended: `IsSafeSegment s` is true iff `s` is non-empty, at most 63
UTF-8 **bytes** long, and every character is a letter, digit, underscore or
hyphen; in particular hyphens (including leading and trailing) are accepted
and dots, quotes and whitespace are rejected. -/
theorem safeSegment_amended :
    (∀ s : String, IsSafeSegment s = true ↔
      s.data ≠ [] ∧ goLen s.data ≤ 63 ∧
        ∀ c ∈ s.data, (goIsLetter c || goIsDigit c || c == '_' || c == '-') = true) ∧
    IsSafeSegment "-a-" = true ∧ IsSafeSegment "a.b" = false ∧
    IsSafeSegment "a\"b" = false ∧ IsSafeSegment "a b" = false ∧
    IsSafeSegment "" = false ∧ IsSafeSegment (String.mk (List.replicate 64 'a')) = false := by
  refine ⟨fun s => ?_, by decide, by decide, by decide, by decide, by decide, by decide⟩
  unfold IsSafeSegment
  by_cases h0 : s = ""
  · subst h0
    simp
  · have hbeq : (s == "") = false := by simp [h0]
    have hdata : s.data ≠ [] := by
      intro hd
      exact h0 (String.ext (hd.trans rfl))
    by_cases h63 : goLen s.data > 63
    · have hc : (s == "" || decide (goLen s.data > 63)) = true := by simp [h63]
      simp only [hc, if_true]
      constructor
      · intro h
        exact absurd h (by simp)
      · rintro ⟨-, h, -⟩
        omega
    · have hc : (s == "" || decide (goLen s.data > 63)) = false := by simp [hbeq, h63]
      simp only [hc, Bool.false_eq_true, if_false, List.all_eq_true]
      exact ⟨fun h => ⟨hdata, by omega, h⟩, fun h => h.2.2⟩

/-- C6 amended witness: concrete evaluation of the equivalence at
`"x-y"`. -/
theorem safeSegment_amended_w : IsSafeSegment "x-y" = true :=
  (safeSegment_amended.1 "x-y").mpr (by decide)

/-- C8 counterexample: `"-9223372036854775808"` parses to the minimum
64-bit integer, which is ≤ 0, yet `LimitOffset` does not normalize it to 1:
the Go check `pageNumber-1 < 0` is computed in wrapping machine arithmetic
and `minInt64 - 1` wraps to `maxInt64`. -/
theorem limitOffset_cex :
    atoi "-9223372036854775808" = some (-(2 ^ 63)) ∧
    ((-(2 ^ 63) : Int) ≤ 0) ∧
    LimitOffset "-9223372036854775808" "10"
      = ("LIMIT 10 OFFSET(-9223372036854775808 - 1) * 10", none) ∧
    (("LIMIT 10 OFFSET(-9223372036854775808 - 1) * 10" : String)
      == "LIMIT 10 OFFSET(1 - 1) * 10") = false := by
  refine ⟨by decide, by decide, ?_, by decide⟩
  decide

/-- C8 amended: both arguments are parsed as integers; on either parse
failure the strict form errors with empty text and the template-facing
wrapper returns `""`; on success a page number `p ≤ 0` is normalized to 1
**except** `p = -2^63`, where the wrapping subtraction `p - 1` is
non-negative and `p` is used as-is; `limitOffset("0","10")` yields
`LIMIT 10 OFFSET(1 - 1) * 10`. -/
theorem limitOffset_amended :
    (∀ pns pss : String,
      ((atoi pns = none ∨ atoi pss = none) →
        LimitOffset pns pss = ("", some ()) ∧ limitOffset pns pss = "") ∧
      (∀ pn psz : Int, atoi pns = some pn → atoi pss = some psz →
        LimitOffset pns pss =
          ("LIMIT " ++ toString psz ++ " OFFSET("
            ++ toString (if -(2 ^ 63) < pn ∧ pn ≤ 0 then 1 else pn) ++ " - 1) * "
            ++ toString psz, none))) ∧
    LimitOffset "0" "10" = ("LIMIT 10 OFFSET(1 - 1) * 10", none) := by
  refine ⟨fun pns pss => ⟨?_, ?_⟩, by decide⟩
  · rintro (h | h)
    · simp [LimitOffset, limitOffset, h]
    · cases hpn : atoi pns <;> simp [LimitOffset, limitOffset, h, hpn]
  · intro pn psz hpn hpsz
    have hr := atoi_range pns pn hpn
    have key : (if int64Wrap (pn - 1) < 0 then (1 : Int) else pn)
        = if -(2 ^ 63) < pn ∧ pn ≤ 0 then 1 else pn := by
      by_cases hmin : pn = -(2 ^ 63)
      · subst hmin
        have hw : int64Wrap (-(2 ^ 63) - 1) = 2 ^ 63 - 1 := by decide
        rw [hw, if_neg (by omega), if_neg (by omega)]
      · rw [int64Wrap_eq (by omega) (by omega)]
        by_cases hle : pn ≤ 0
        · rw [if_pos (by omega), if_pos ⟨by omega, hle⟩]
        · rw [if_neg (by omega), if_neg fun hc => hle hc.2]
    simp only [LimitOffset, hpn, hpsz, key]

/-- C3: over any run of `sqlVal`/`sqlList` calls starting from a registry
whose counter equals its Argument List length (a fresh registry has both 0):
the Argument List grows by exactly the bound values, after the whole run and
after every prefix the counter equals the Argument List length, every call's
output carries the 1-based positions its values take in the Argument List at
the moment of emission, the ordinals emitted over the run are exactly the
gapless, duplicate-free range starting one past the initial counter, and the
value bound with ordinal `fr.args.length + i + 1` sits at that position in
the final Argument List. -/
theorem sql_ordinal_invariant :
    ∀ (cs : List SqlCall) (fr : FR), fr.next = fr.args.length →
      (runCalls fr cs).1.args = fr.args ++ boundRun fr cs ∧
      (runCalls fr cs).1.next = (runCalls fr cs).1.args.length ∧
      (∀ k, (runCalls fr (cs.take k)).1.next = (runCalls fr (cs.take k)).1.args.length) ∧
      (runCalls fr cs).2 = specOuts fr cs ∧
      specOrds fr cs = List.range' (fr.next + 1) (boundRun fr cs).length ∧
      (∀ i, i < (boundRun fr cs).length →
        (runCalls fr cs).1.args[fr.args.length + i]? = (boundRun fr cs)[i]?) := by
  intro cs fr h
  obtain ⟨h1, h2, h3⟩ := runCalls_spec cs fr h
  refine ⟨h1, h2, fun k => (runCalls_spec (cs.take k) fr h).2.1, h3, ?_, ?_⟩
  · rw [h, specOrds_range cs fr h]
  · intro i hi
    rw [h1, List.getElem?_append_right (by omega)]
    congr 1
    omega

/-- C3 witness: the spec's example run on a fresh registry. -/
theorem sql_ordinal_invariant_w :
    demoFR.next = demoFR.args.length ∧
      (runCalls demoFR demoCalls).2 = ["$1", "($2,$3)"] ∧
      (runCalls demoFR demoCalls).1.next = (runCalls demoFR demoCalls).1.args.length ∧
      specOrds demoFR demoCalls = [1, 2, 3] := by
  refine ⟨rfl, ?_, (sql_ordinal_invariant demoCalls demoFR rfl).2.1, ?_⟩
  · rw [(sql_ordinal_invariant demoCalls demoFR rfl).2.2.2.1]
    decide
  · rw [(sql_ordinal_invariant demoCalls demoFR rfl).2.2.2.2.1]
    decide

/-- C7: the spec's example render — `sqlVal("id")` then `sqlList("names")`
with `names = ["a","b"]` — emits `$1` and `($2,$3)` and leaves the Argument
List `[<id value>, "a", "b"]`; in general `sqlList` emits one placeholder
per element of a string-sequence value (parenthesized, comma-joined) and a
single parenthesized placeholder (binding the raw value once) for any
non-sequence value. -/
theorem sqlList_shapes :
    (∀ v : Val,
      (runCalls ⟨[("id", v), ("names", Val.strList ["a", "b"])], [], 0⟩
          [.val "id", .list "names"]).2 = ["$1", "($2,$3)"] ∧
      (runCalls ⟨[("id", v), ("names", Val.strList ["a", "b"])], [], 0⟩
          [.val "id", .list "names"]).1.args = [v, .str "a", .str "b"]) ∧
    (∀ (fr : FR) (k : String) (l : List String),
      lookupTD fr.templateData k = some (.strList l) →
      sqlList fr k = ("(" ++ String.intercalate ","
          ((List.range l.length).map fun i => phString (fr.next + 1 + i)) ++ ")",
        { fr with args := fr.args ++ l.map Val.str, next := fr.next + l.length })) ∧
    (∀ (fr : FR) (k : String), (∀ l, lookupTD fr.templateData k ≠ some (.strList l)) →
      sqlList fr k = ("(" ++ phString (fr.next + 1) ++ ")",
        { fr with args := fr.args ++ [lookupVal fr.templateData k], next := fr.next + 1 })) := by
  refine ⟨fun v => ⟨?_, ?_⟩, ?_, ?_⟩
  · simp [runCalls, applyCall, sqlVal, sqlList, lookupTD, lookupVal, sqlListLoop]
    decide
  · simp [runCalls, applyCall, sqlVal, sqlList, lookupTD, lookupVal, sqlListLoop]
  · intro fr k l hv
    obtain ⟨g1, g2, g3⟩ := sqlListLoop_spec l fr
    have hfr : (sqlListLoop fr l).1
        = { fr with args := fr.args ++ l.map Val.str, next := fr.next + l.length } :=
      FR.ext2 (sqlListLoop_td l fr) g1 g2
    simp only [sqlList, hv]
    rw [Prod.ext_iff]
    constructor
    · show "(" ++ String.intercalate "," (sqlListLoop fr l).2 ++ ")" = _
      simp only [g3, phString]
    · show (sqlListLoop fr l).1 = _
      exact hfr
  · intro fr k hno
    have hbranch : sqlList fr k = ("($" ++ toString (fr.next + 1) ++ ")",
        { fr with args := fr.args ++ [lookupVal fr.templateData k], next := fr.next + 1 }) := by
      rcases hv : lookupTD fr.templateData k with _ | v
      · simp [sqlList, hv]
      · cases v with
        | strList l => exact absurd hv (hno l)
        | str s => simp [sqlList, hv]
        | vnil => simp [sqlList, hv]
        | box n => simp [sqlList, hv]
    rw [hbranch, phString, string_paren_ph]

/-- C7 witness: the concrete example, plus the two general branches at
concrete registries. -/
theorem sqlList_shapes_w :
    ((runCalls ⟨[("id", Val.box 7), ("names", Val.strList ["a", "b"])], [], 0⟩
        [.val "id", .list "names"]).2 = ["$1", "($2,$3)"] ∧
      (runCalls ⟨[("id", Val.box 7), ("names", Val.strList ["a", "b"])], [], 0⟩
        [.val "id", .list "names"]).1.args = [.box 7, .str "a", .str "b"]) ∧
    lookupTD (⟨[("xs", Val.strList ["x"])], [], 0⟩ : FR).templateData "xs"
      = some (.strList ["x"]) ∧
    sqlList ⟨[("xs", Val.strList ["x"])], [], 0⟩ "xs" = ("($1)",
      ⟨[("xs", Val.strList ["x"])], [.str "x"], 1⟩) ∧
    lookupTD (⟨[], [], 0⟩ : FR).templateData "k" = none ∧
    sqlList ⟨[], [], 0⟩ "k" = ("($1)", ⟨[], [.vnil], 1⟩) := by
  refine ⟨sqlList_shapes.1 (Val.box 7), by decide, ?_, rfl, ?_⟩
  · rw [sqlList_shapes.2.1 ⟨[("xs", Val.strList ["x"])], [], 0⟩ "xs" ["x"] (by decide)]
    decide
  · rw [sqlList_shapes.2.2 ⟨[], [], 0⟩ "k" fun l h => (by cases h)]
    decide

/-- C9: `defaultOrValue` inserts the default exactly when the key is
absent and returns the value now stored at the key; no other registry
operation modifies Template Data. -/
theorem defaultOrValue_frame :
    (∀ (fr : FR) (k d : String),
      (isSet fr k = true → defaultOrValue fr k d = (lookupVal fr.templateData k, fr)) ∧
      (isSet fr k = false →
        (defaultOrValue fr k d).1 = .str d ∧
        (defaultOrValue fr k d).2
          = { fr with templateData := setTD fr.templateData k (.str d) })) ∧
    (∀ (fr : FR) (op : Op), (∀ k d, op ≠ .defaultOrValue k d) →
      (applyOp fr op).templateData = fr.templateData) := by
  constructor
  · intro fr k d
    constructor
    · intro h
      simp [defaultOrValue, h]
    · intro h
      simp only [defaultOrValue, h, Bool.false_eq_true, if_false]
      constructor
      · simp [lookupVal, lookupTD_setTD_self]
      · trivial
  · intro fr op hop
    cases op with
    | isSet k => rfl
    | defaultOrValue k d => exact absurd rfl (hop k d)
    | inFormat k => rfl
    | unEscape s => rfl
    | split o s => rfl
    | limitOffset a b => rfl
    | sqlVal k => rfl
    | ident k => rfl
    | sqlList k =>
      show (sqlList fr k).2.templateData = fr.templateData
      rcases hv : lookupTD fr.templateData k with _ | v
      · simp [sqlList, hv]
      · cases v with
        | strList l => simp [sqlList, hv, sqlListLoop_td]
        | str s => simp [sqlList, hv]
        | vnil => simp [sqlList, hv]
        | box n => simp [sqlList, hv]

/-- C9 witness: concrete evaluation of both `defaultOrValue` branches and
one non-mutating operation. -/
theorem defaultOrValue_frame_w :
    (isSet ⟨[("a", .str "x")], [], 0⟩ "a" = true ∧
      defaultOrValue ⟨[("a", .str "x")], [], 0⟩ "a" "z"
        = (lookupVal (⟨[("a", .str "x")], [], 0⟩ : FR).templateData "a",
            ⟨[("a", .str "x")], [], 0⟩)) ∧
    (isSet ⟨[("a", .str "x")], [], 0⟩ "b" = false ∧
      (defaultOrValue ⟨[("a", .str "x")], [], 0⟩ "b" "z").1 = .str "z") ∧
    (applyOp ⟨[("a", .str "x")], [], 0⟩ (.sqlVal "a")).templateData
      = (⟨[("a", .str "x")], [], 0⟩ : FR).templateData :=
  ⟨⟨by decide, (defaultOrValue_frame.1 ⟨[("a", .str "x")], [], 0⟩ "a" "z").1 (by decide)⟩,
    ⟨by decide, ((defaultOrValue_frame.1 ⟨[("a", .str "x")], [], 0⟩ "b" "z").2 (by decide)).1⟩,
    defaultOrValue_frame.2 ⟨[("a", .str "x")], [], 0⟩ (.sqlVal "a")
      fun k d h => Op.noConfusion h⟩

/-- C10: for a key that is absent or whose value is not a string, `ident`
returns the empty string and an `InvalidIdentifier` error carrying the
empty string (the failed type assertion yields `""`, which the pattern
check rejects). -/
theorem ident_nonstring :
    ∀ (fr : FR) (k : String), (∀ s, lookupTD fr.templateData k ≠ some (.str s)) →
      ident fr k = ("", some (.invalidIdentifier "")) := by
  intro fr k h
  have hs : (match lookupTD fr.templateData k with
      | some (.str t) => t
      | _ => "") = "" := by
    rcases hv : lookupTD fr.templateData k with _ | v
    · rfl
    · cases v with
      | str s => exact absurd hv (h s)
      | strList l => rfl
      | vnil => rfl
      | box n => rfl
  simp only [ident, hs]
  decide

/-- C10 witness: a missing key and a non-string key. -/
theorem ident_nonstring_w :
    (lookupTD (⟨[], [], 0⟩ : FR).templateData "k" = none ∧
      ident ⟨[], [], 0⟩ "k" = ("", some (.invalidIdentifier ""))) ∧
    (lookupTD (⟨[("k", .box 3)], [], 0⟩ : FR).templateData "k" = some (.box 3) ∧
      ident ⟨[("k", .box 3)], [], 0⟩ "k" = ("", some (.invalidIdentifier ""))) :=
  ⟨⟨rfl, ident_nonstring ⟨[], [], 0⟩ "k" fun s h => (by cases h)⟩,
    ⟨rfl, ident_nonstring ⟨[("k", .box 3)], [], 0⟩ "k" fun s h => (by cases h)⟩⟩

/-- C4 counterexample: with a 64-`a` segment stored under `"k"`, the
registry's `ident` succeeds (it only re-applies the pattern check) while
`Quote` fails its per-segment length check — so "`ident(key)` succeeds iff
`Quote(s)` succeeds" is false. -/
theorem ident_quote_cex :
    lookupTD (⟨[("k", .str (String.mk (List.replicate 64 'a')))], [], 0⟩ : FR).templateData "k"
      = some (.str (String.mk (List.replicate 64 'a'))) ∧
    (ident ⟨[("k", .str (String.mk (List.replicate 64 'a')))], [], 0⟩ "k").2 = none ∧
    (Quote (String.mk (List.replicate 64 'a'))).2
      = some (.invalidIdentifier (String.mk (List.replicate 64 'a'))) := by
  refine ⟨by decide, by decide, ?_⟩
  decide

/-- C4 amended: for a string value `s` under `key`, `ident(key)` succeeds
iff the identifier pattern matches `s` (no per-segment length check), so
success of `Quote(s)` implies success of `ident(key)` but not conversely;
whenever `Quote(s)` succeeds both return the same quoted string (the
quote-escaping `Quote` additionally performs is unreachable on valid
inputs). -/
theorem ident_quote_amended :
    ∀ (fr : FR) (k s : String), lookupTD fr.templateData k = some (.str s) →
      ((ident fr k).2 = none ↔ reMatch s.data = true) ∧
      ((Quote s).2 = none → (ident fr k).2 = none) ∧
      ((Quote s).2 = none → (ident fr k).1 = (Quote s).1) := by
  intro fr k s h
  have hs : (match lookupTD fr.templateData k with
      | some (.str t) => t
      | _ => "") = s := by rw [h]
  refine ⟨?_, ?_, ?_⟩
  · by_cases hm : reMatch s.data = true <;> simp [ident, hs, hm]
  · intro hq
    simp [ident, hs, isValid_rematch (quote_none_iff.mp hq)]
  · intro hq
    have hv : IsValid s = true := quote_none_iff.mp hq
    have hm : reMatch s.data = true := isValid_rematch hv
    apply String.ext
    rw [quote_valid_data hv]
    simp only [ident, hs, hm, if_true]

/-- C4 amended witness: concrete evaluation at a valid dotted path. -/
theorem ident_quote_amended_w :
    lookupTD (⟨[("t", .str "a.b")], [], 0⟩ : FR).templateData "t" = some (.str "a.b") ∧
      (Quote "a.b").2 = none ∧
      (ident ⟨[("t", .str "a.b")], [], 0⟩ "t").2 = none ∧
      (ident ⟨[("t", .str "a.b")], [], 0⟩ "t").1 = (Quote "a.b").1 :=
  ⟨by decide, by decide,
    (ident_quote_amended ⟨[("t", .str "a.b")], [], 0⟩ "t" "a.b" (by decide)).2.1 (by decide),
    (ident_quote_amended ⟨[("t", .str "a.b")], [], 0⟩ "t" "a.b" (by decide)).2.2 (by decide)⟩

/-- C8 amended witness: parse-failure and success branches at concrete
inputs. -/
theorem limitOffset_amended_w :
    (atoi "x" = none ∨ atoi "10" = none) ∧
      (LimitOffset "x" "10" = ("", some ()) ∧ limitOffset "x" "10" = "") ∧
      atoi "0" = some 0 ∧ atoi "10" = some 10 ∧
      LimitOffset "0" "10" = ("LIMIT 10 OFFSET(1 - 1) * 10", none) :=
  ⟨Or.inl (by decide), (limitOffset_amended.1 "x" "10").1 (Or.inl (by decide)),
    by decide, by decide, by
      rw [(limitOffset_amended.1 "0" "10").2 0 10 (by decide) (by decide)]
      decide⟩

end Prest
